import Mathlib

/-!
Verification development for the Path update pipeline of a 2-D vector-graphics
scenegraph library.  The embedding follows the TypeScript sources: the `Path`
class (`getPointAt`, `plot`, `#updateLength`, `update`, `flagReset`, the
property setters), the `Anchor` vertex model, and the `lerp`/`mod` utilities.
Machine floats are embedded as real numbers (the inputs exercised below keep
every intermediate value exact).  Utility modules that the repository imports
but whose sources are not part of this snapshot (`utils/curves`, `utils/shape`,
the `Collection` event semantics, the reactive `Anchor` change channel) are
modelled from the specification; each such definition carries a doc comment
saying so.
-/

set_option maxHeartbeats 1600000

open Classical

noncomputable section

namespace TwoPath

/-- 2-D vector value: the `x`/`y` components of the `G20`-style vectors used by
`Anchor` origins and control handles. -/
structure Vec where
  x : ℝ
  y : ℝ

/-- `G20.zero` / the result of `clear()`. -/
def Vec.zero : Vec := ⟨0, 0⟩

/-- `lerp` from `utils/math.ts`: `t * (b - a) + a`. -/
def lerp (a b t : ℝ) : ℝ := t * (b - a) + a

/-- Componentwise `G20.lerp(target, t)`: move `a` toward `b` by fraction `t`.
Modelled from the spec: the Vector component provides linear interpolation. -/
def Vec.lerp (a b : Vec) (t : ℝ) : Vec := ⟨TwoPath.lerp a.x b.x t, TwoPath.lerp a.y b.y t⟩

/-- Euclidean distance between two points, as computed by the straight-segment
branch of the curve-length utility. -/
def dist (a b : Vec) : ℝ := Real.sqrt ((b.x - a.x) ^ 2 + (b.y - a.y) ^ 2)

/-- `mod` from `utils/math.ts`: repeatedly adds `l` to a negative `v`, then
takes the JS `%`.  For `l > 0` (the only case the `Path` code reaches with a
nonempty vertex list) this is euclidean remainder; for `l ≤ 0` the JS loop
would not terminate or produce NaN, and the value is never used because every
vertex lookup on an empty list already misses, so we return 0 there. -/
def jsmod (v l : ℤ) : ℤ := if 0 < l then v.emod l else 0

/-- Path-command tags (`Commands` from `utils/path-commands.ts`). -/
inductive Cmd where
  | move
  | line
  | curve
  | arc
  | close
deriving DecidableEq

/-- One vertex of a path (the reactive `Anchor` used by `Path`; its shape —
origin, left/right control handles, command, `relative`, arc parameters and the
scratch parameter `t` written by `getPointAt` — is taken from the `Anchor`
class in the sources).  The `id` field stands for object identity and is used
only by the subscription bookkeeping (`Map<Anchor, Disposable>` keyed on the
object). -/
structure Anchor where
  id : ℕ := 0
  origin : Vec := Vec.zero
  controlLeft : Vec := Vec.zero
  controlRight : Vec := Vec.zero
  command : Cmd := Cmd.move
  relative : Bool := true
  rx : ℝ := 0
  ry : ℝ := 0
  xAxisRotation : ℝ := 0
  largeArcFlag : ℝ := 0
  sweepFlag : ℝ := 1
  t : ℝ := 0

/-- `Anchor.copy`: copies origin, command, both control handles, `relative`
and the arc parameters; it does not copy `t` (nor, being object identity,
`id`). -/
def Anchor.copy (dst src : Anchor) : Anchor :=
  { src with id := dst.id, t := dst.t }

/-- Effective right control point of the anchor a segment starts from:
`b.controls.right`, offset by `b.origin` when `b.relative` (prologue shared by
`getPointAt` and the curve-length utility). -/
def Anchor.effRight (b : Anchor) : Vec :=
  if b.relative then ⟨b.controlRight.x + b.origin.x, b.controlRight.y + b.origin.y⟩
  else b.controlRight

/-- Effective left control point of the anchor a segment ends at. -/
def Anchor.effLeft (a : Anchor) : Vec :=
  if a.relative then ⟨a.controlLeft.x + a.origin.x, a.controlLeft.y + a.origin.y⟩
  else a.controlLeft

/-- Modelled from the spec: `getComponentOnCubicBezier` (`utils/curves` is not
in this snapshot) — the standard cubic-bezier component
`k³a + 3k²tb + 3kt²c + t³d` with `k = 1 - t`. -/
def bezc (t a b c d : ℝ) : ℝ :=
  (1 - t) ^ 3 * a + 3 * (1 - t) ^ 2 * t * b + 3 * (1 - t) * t ^ 2 * c + t ^ 3 * d

/-- Point on the cubic bezier through `p1 p2 p3 p4` at parameter `t`. -/
def bezPt (p1 p2 p3 p4 : Vec) (t : ℝ) : Vec :=
  ⟨bezc t p1.x p2.x p3.x p4.x, bezc t p1.y p2.y p3.y p4.y⟩

/-- Modelled from the spec: the default subdivision limit of the curve-length
approximation (documented as fixed; its exact value only affects curved
segments, which no claim below evaluates numerically). -/
def curveLimit : ℕ := 10

/-- Modelled from the spec: `getCurveLength(a, b, limit)` (`utils/shape` /
`utils/curves` are not in this snapshot).  The control points are resolved as
in `getPointAt`; when they coincide with the endpoints the segment is straight
and the closed-form length is the Euclidean distance, otherwise a numeric
approximation sums chord lengths over `limit` subdivisions of the cubic. -/
def getCurveLength (a b : Anchor) (limit : ℕ) : ℝ :=
  let p1 := b.origin
  let p2 := b.effRight
  let p3 := a.effLeft
  let p4 := a.origin
  if p1.x = p2.x ∧ p1.y = p2.y ∧ p3.x = p4.x ∧ p3.y = p4.y then dist p1 p4
  else (Finset.range limit).sum fun k =>
    dist (bezPt p1 p2 p3 p4 ((k : ℝ) / (limit : ℝ))) (bezPt p1 p2 p3 p4 (((k : ℝ) + 1) / (limit : ℝ)))

/-- The per-vertex segment length written by `Path.#updateLength` at index `i`:
index 0 stores 0 (the function hard-codes `closed = false`, so the first
disjunct of `(i <= 0 && !closed) || a.command === Commands.move` always fires
at 0), a vertex whose command is `move` stores 0, and otherwise the curve
length from the previous vertex is stored (`b` always holds `vertices[i-1]`
when index `i` is processed, because every branch ends with `b = a`). -/
def segLength (vs : List Anchor) (limit : ℕ) (i : ℕ) : ℝ :=
  if i = 0 then 0
  else
    match vs.get? i, vs.get? (i - 1) with
    | some a, some b => if a.command = Cmd.move then 0 else getCurveLength a b limit
    | _, _ => 0

/-- The list of segment lengths `Path.#updateLength` writes for the current
vertex list (one entry per vertex; the wrap-around branch is dead code because
`closed` is hard-coded to `false`). -/
def segLengths (vs : List Anchor) (limit : ℕ) : List ℝ :=
  (List.range vs.length).map (segLength vs limit)

/-- The per-instance dirty flags a `Path` owns (`Flag` enumeration members the
`Path` class reads and writes). -/
@[ext]
structure Flags where
  vertices : Bool
  length : Bool
  fill : Bool
  stroke : Bool
  cap : Bool
  join : Bool
  miter : Bool
  linewidth : Bool
  mask : Bool
  clip : Bool
  vectorEffect : Bool

/-- The `Path` state the claims are about: the model vertex collection, the
derived arc-length table and total, the structural and trimming parameters,
the dirty flags, the render vertex buffer `zzz.vertices` together with its
version counter `zzz.vertices_subject`, the stroke width, and the subscription
bookkeeping (`#anchor_change_map` keys as anchor ids, plus whether the
collection-level insert/remove subscriptions are installed). -/
structure Path where
  vertices : List Anchor
  lengths : List ℝ
  length : ℝ
  closed : Bool
  curved : Bool
  automatic : Bool
  beginning : ℝ
  ending : ℝ
  flags : Flags
  zzzVertices : List Anchor
  version : ℕ
  strokeWidth : ℝ
  anchorSubs : List ℕ
  collectionSub : Bool

/-- `Path.#updateLength` (the computation itself; the non-silent entry point
that first runs `update()` is `updateLengthNS` below).  JS array writes
`lengths[i] = v` for `i = 0 .. vertices.length - 1` overwrite the prefix of the
existing table and leave any longer stale tail in place; the accumulated `sum`
only contains the freshly written values; `Flag.Length` is cleared. -/
def Path.updateLengthS (p : Path) (limit : ℕ) : Path :=
  let ls := segLengths p.vertices limit
  { p with
    lengths := ls ++ p.lengths.drop p.vertices.length
    length := ls.sum
    flags := { p.flags with length := false } }

/-- `Path.plot` for `curved = false`: command `move` at index 0, `line`
afterwards. -/
def plotStraightAux : ℕ → List Anchor → List Anchor
  | _, [] => []
  | i, a :: rest => { a with command := if i = 0 then Cmd.move else Cmd.line } :: plotStraightAux (i + 1) rest

/-- Straight-plotting entry point. -/
def plotStraight (vs : List Anchor) : List Anchor := plotStraightAux 0 vs

/-- Modelled from the spec: the Catmull-Rom-style handle of vertex `i`, derived
from the vector between its two neighbouring vertex origins (closed paths wrap,
open paths clamp the missing neighbour to the vertex itself); `utils/curves`'
`getCurveFromPoints` is not in this snapshot.  Only the facts that the handles
depend solely on the vertex origins and that the origins themselves are left
unchanged are used by the theorems below. -/
def catmullHandle (os : List Vec) (closed : Bool) (i : ℕ) : Vec :=
  let n := os.length
  let prev := if closed then os.getD ((i + n - 1) % n) Vec.zero else os.getD (i - 1) (os.getD i Vec.zero)
  let next := if closed then os.getD ((i + 1) % n) Vec.zero
    else if i + 1 < n then os.getD (i + 1) Vec.zero else os.getD i Vec.zero
  ⟨(next.x - prev.x) / 6, (next.y - prev.y) / 6⟩

/-- Worker for `getCurveFromPoints`: rewrites every vertex's command and
relative handles from the (fixed) origin list. -/
def curveAux (os : List Vec) (closed : Bool) : ℕ → List Anchor → List Anchor
  | _, [] => []
  | i, a :: rest =>
    { a with
      command := if i = 0 then Cmd.move else Cmd.curve
      controlRight := catmullHandle os closed i
      controlLeft := ⟨-(catmullHandle os closed i).x, -(catmullHandle os closed i).y⟩ } :: curveAux os closed (i + 1) rest

/-- Modelled from the spec: `getCurveFromPoints` — automatic curved plotting. -/
def getCurveFromPoints (vs : List Anchor) (closed : Bool) : List Anchor :=
  curveAux (vs.map (·.origin)) closed 0 vs

/-- `Path.plot`: curved paths get fitted handles, otherwise vertex 0 becomes a
`move` and every later vertex a `line`. -/
def Path.plot (p : Path) : Path :=
  { p with vertices := if p.curved then getCurveFromPoints p.vertices p.closed else plotStraight p.vertices }

/-- Modelled from the spec: `getIdByLength` (`utils/shape` is not in this
snapshot) — the fractional vertex index at arc length `target`: 0 at or below
the start, the last index at or beyond the total, and otherwise linear
interpolation inside the segment that contains `target` (segment `i` ends at
vertex `i`, so entry 0 of the table — always 0 — is skipped). -/
def fracIndexAux : List ℝ → ℝ → ℕ → ℝ
  | [], _, i => (i : ℝ)
  | l :: rest, rem, i => if rem ≤ l then (i : ℝ) + rem / l else fracIndexAux rest (rem - l) (i + 1)

/-- Fractional index at arc length, see `fracIndexAux`. -/
def getIdByLength (lengths : List ℝ) (total target : ℝ) : ℝ :=
  if target ≤ 0 then 0
  else if total ≤ target then ((lengths.length - 1 : ℕ) : ℝ)
  else fracIndexAux (lengths.drop 1) target 0

/-- Modelled from the spec: `contains(path, t)` (`utils/shape` is not in this
snapshot) — whether the arc-length position `t·total` falls exactly on a vertex
of the path (positions 0 and 1 always do). -/
def containsPos (lengths : List ℝ) (total t : ℝ) : Prop :=
  t = 0 ∨ t = 1 ∨ ∃ k < lengths.length, ((lengths.take k).sum = t * total)

/-- The segment-search loop of `getPointAt`: walk the `lengths` table with the
remaining arc-length target; the first segment `i` with
`sum + lengths[i] ≥ target` wins and the local parameter is
`(target - sum) / lengths[i]`, except that a zero-length segment yields local
parameter 0 instead of dividing. -/
def walkSeg : List ℝ → ℝ → ℕ → Option (ℕ × ℝ)
  | [], _, _ => none
  | l :: rest, rem, i =>
    if rem ≤ l then some (i, if l = 0 then 0 else rem / l) else walkSeg rest (rem - l) (i + 1)

/-- Index lookup with JS semantics: negative or out-of-range indices miss. -/
def getAtZ (vs : List Anchor) (i : ℤ) : Option Anchor :=
  if i < 0 then none else vs.get? i.toNat

/-- Result of `getPointAt`: `sentinel` for the no-result cases (the JS code
returns `null` when the loop finds no enclosing segment, and `undefined` when
both enclosing vertex lookups miss), `fallback a` when exactly one enclosing
vertex lookup misses (the JS code returns the other anchor unmodified), and
`point a` for the populated output anchor. -/
inductive GPRes where
  | sentinel : GPRes
  | fallback : Anchor → GPRes
  | point : Anchor → GPRes

/-- The De-Casteljau population step of `getPointAt`: evaluate the cubic from
`b` to `a` at the local parameter `t`, derive the split control handles from
the interpolation levels, write them (relative to the new origin when the
output anchor is `relative`) and record `t` on the output anchor. -/
def populate (ank a b : Anchor) (t : ℝ) : Anchor :=
  let p1 := b.origin
  let p2 := b.effRight
  let p3 := a.effLeft
  let p4 := a.origin
  let x := bezc t p1.x p2.x p3.x p4.x
  let y := bezc t p1.y p2.y p3.y p4.y
  let t1x := lerp p1.x p2.x t
  let t1y := lerp p1.y p2.y t
  let t2x := lerp p2.x p3.x t
  let t2y := lerp p2.y p3.y t
  let t3x := lerp p3.x p4.x t
  let t3y := lerp p3.y p4.y t
  let brx := lerp t1x t2x t
  let bry := lerp t1y t2y t
  let alx := lerp t2x t3x t
  let aly := lerp t2y t3y t
  if ank.relative then
    { ank with
      origin := ⟨x, y⟩
      controlLeft := ⟨brx - x, bry - y⟩
      controlRight := ⟨alx - x, aly - y⟩
      t := t }
  else
    { ank with
      origin := ⟨x, y⟩
      controlLeft := ⟨brx, bry⟩
      controlRight := ⟨alx, aly⟩
      t := t }

/-- The enclosing-anchor resolution of `getPointAt` with the JS no-result
behaviours: the loop-never-broke case is handled before this point; here, one
missing lookup returns the other anchor raw (`if (!a) return b`), both missing
returns undefined, and two hits continue with the population step `k`. -/
def resolvePair (oa ob : Option Anchor) (k : Anchor → Anchor → GPRes) : GPRes :=
  match oa, ob with
  | some a, some b => k a b
  | some a, none => GPRes.fallback a
  | none, some b => GPRes.fallback b
  | none, none => GPRes.sentinel

/-- `Path.getPointAt` after the arc-length target has been fixed: search the
segment table, resolve the enclosing anchor pair `a` (at the found index) and
`b` (the previous one; closed paths wrap the index arithmetic, with the pair
swapped at index 0, open paths clamp), and populate the output anchor, with
the JS no-result behaviours of the source preserved (see `GPRes`). -/
def getPointAtCore (vs : List Anchor) (lengths : List ℝ) (closed : Bool) (target : ℝ) (ank : Anchor) : GPRes :=
  match walkSeg lengths target 0 with
  | none => GPRes.sentinel
  | some (i, t) =>
    let n : ℤ := (vs.length : ℤ)
    let lastI : ℤ := n - 1
    let ia : ℤ := if closed then (if i = 0 then jsmod ((i : ℤ) - 1) n else jsmod (i : ℤ) n) else (i : ℤ)
    let ib : ℤ := if closed then (if i = 0 then (i : ℤ) else jsmod ((i : ℤ) - 1) n) else min (max ((i : ℤ) - 1) 0) lastI
    resolvePair (getAtZ vs ia) (getAtZ vs ib) fun a b => GPRes.point (populate ank a b t)

/-- `min(max(t, 0), 1)` — the clamp `getPointAt` applies to its parameter. -/
def clamp01 (t : ℝ) : ℝ := min (max t 0) 1

/-- The in-`update` use of `getPointAt(t, v)`: the call mutates `v` only when
a populated point is produced (in the no-result cases the output anchor is
untouched); `Flag.Length` is already clear at these call sites, so the
`length` getter returns the stored total. -/
def getPointAtMut (vs : List Anchor) (lengths : List ℝ) (total : ℝ) (closed : Bool) (t : ℝ) (ank : Anchor) : Anchor :=
  match getPointAtCore vs lengths closed (total * clamp01 t) ank with
  | GPRes.point a => a
  | _ => ank

/-- The control-handle projection `update` applies to the anchor just before a
synthesized right boundary: `copy(prev.controls.right).lerp(target, 1 - v.t)`
with target `G20.zero` when `prev.relative`, else `prev.origin`. -/
def projRightHandle (prev : Anchor) (vt : ℝ) : Vec :=
  if prev.relative then Vec.lerp prev.controlRight Vec.zero (1 - vt)
  else Vec.lerp prev.controlRight prev.origin (1 - vt)

/-- The control-handle projection `update` applies to the anchor just after a
prepended left boundary: `copy(next.controls.left).lerp(target, v.t)`. -/
def projLeftHandle (next : Anchor) (vt : ℝ) : Vec :=
  if next.relative then Vec.lerp next.controlLeft Vec.zero vt
  else Vec.lerp next.controlLeft next.origin vt

/-- Overwrite the right control handle of the buffer entry that came from pool
index `j` (the source mutates `this.#anchors[i-1]`, which is aliased with the
buffer entry pushed for that index when there is one). -/
def setRightAt (zzz : List (ℕ × Anchor)) (j : ℕ) (h : Vec) : List (ℕ × Anchor) :=
  zzz.map fun q => if q.1 = j then (q.1, { q.2 with controlRight := h }) else q

/-- Overwrite the left control handle of the buffer entry that came from pool
index `j` (the source mutates `this.#anchors[i+1]`). -/
def setLeftAt (zzz : List (ℕ × Anchor)) (j : ℕ) (h : Vec) : List (ℕ × Anchor) :=
  zzz.map fun q => if q.1 = j then (q.1, { q.2 with controlLeft := h }) else q

/-- Loop state of the trim-and-rebuild pass: the buffer built so far (each
entry tagged with the `#anchors` pool index it is aliased with, so that the
source's cross-iteration mutations can be applied), and whether the `right` /
`left` locals have been assigned. -/
structure BufState where
  zzz : List (ℕ × Anchor)
  rightSet : Bool
  leftSet : Bool

/-- One iteration of `update`'s vertex loop.  `this.#anchors[i].copy(v)` is
embedded as a fresh copy of the model vertex (pool anchors are allocation
caches: every rendered field is overwritten by `copy` before the entry is
pushed, and the scratch `t` is written by `getPointAt` before any read in the
same pass, so the pool carries no observable state between passes; the copy
gets `id := 0` and `t := 0` like a freshly allocated pool anchor). -/
def bufStep (vs : List Anchor) (lengths : List ℝ) (total : ℝ) (closed : Bool)
    (beginning ending : ℝ) (lB uB : ℤ) (st : BufState) (i : ℕ) : BufState :=
  match vs.get? i with
  | none => st
  | some vtx =>
    if (i : ℤ) > uB ∧ st.rightSet = false then
      let v0 : Anchor := { vtx with id := 0, t := 0 }
      let v1 := getPointAtMut vs lengths total closed ending v0
      match vs.get? (i - 1) with
      | none => { st with zzz := st.zzz ++ [(i, v1)], rightSet := true }
      | some prev =>
        let v2 := if v1.relative then { v1 with controlRight := Vec.zero } else { v1 with controlRight := v1.origin }
        { st with zzz := setRightAt st.zzz (i - 1) (projRightHandle prev v1.t) ++ [(i, v2)], rightSet := true }
    else if (i : ℤ) ≥ lB ∧ (i : ℤ) ≤ uB then
      let v0 : Anchor := { vtx with id := 0, t := 0 }
      if (i : ℤ) = uB ∧ containsPos lengths total ending then
        let v1 :=
          if closed = false then
            (if v0.relative then { v0 with controlRight := Vec.zero } else { v0 with controlRight := v0.origin })
          else v0
        { st with zzz := st.zzz ++ [(i, v1)], rightSet := true }
      else if (i : ℤ) = lB ∧ containsPos lengths total beginning then
        let v1 : Anchor := { v0 with command := Cmd.move }
        let v2 :=
          if closed = false then
            (if v1.relative then { v1 with controlLeft := Vec.zero } else { v1 with controlLeft := v1.origin })
          else v1
        { st with zzz := st.zzz ++ [(i, v2)], leftSet := true }
      else { st with zzz := st.zzz ++ [(i, v0)] }
    else st

/-- The Vertices-dirty body of `Path.update`: normalize `beginning ≤ ending`,
compute the integer index bounds, run the vertex loop, then prepend the
synthesized left boundary when needed (projecting the next anchor's left
handle), and return the rendered buffer. -/
def buildBuffer (vs : List Anchor) (lengths : List ℝ) (total : ℝ) (closed : Bool)
    (beginning0 ending0 : ℝ) : List Anchor :=
  let beginning := min beginning0 ending0
  let ending := max beginning0 ending0
  let lB : ℤ := ⌈getIdByLength lengths total (beginning * total)⌉
  let uB : ℤ := ⌊getIdByLength lengths total (ending * total)⌋
  let st := (List.range vs.length).foldl (bufStep vs lengths total closed beginning ending lB uB) ⟨[], false, false⟩
  let stF :=
    if 0 < lB ∧ st.leftSet = false then
      match vs.get? (lB - 1).toNat with
      | none => st
      | some vtx =>
        let v0 : Anchor := { vtx with id := 0, t := 0 }
        let v1 := getPointAtMut vs lengths total closed beginning v0
        let v2 : Anchor := { v1 with command := Cmd.move }
        match vs.get? ((lB - 1).toNat + 1) with
        | none => { st with zzz := ((lB - 1).toNat, v2) :: st.zzz }
        | some next =>
          let v3 : Anchor := { v2 with controlLeft := Vec.zero }
          { st with zzz := ((lB - 1).toNat, v3) :: setLeftAt st.zzz ((lB - 1).toNat + 1) (projLeftHandle next v1.t) }
    else st
  stF.zzz.map Prod.snd

/-- `Path.update`: when the Vertices flag is set, plot if automatic, recompute
lengths if the Length flag is also set (silently), rebuild the render vertex
buffer restricted to the normalized `[beginning, ending]` window, and bump the
buffer version counter.  No flag is cleared here except `Flag.Length` inside
the length recomputation; the base-class `update` touches only transform state
outside this model. -/
def Path.update (p : Path) : Path :=
  if p.flags.vertices then
    let p1 := if p.automatic then p.plot else p
    let p2 := if p1.flags.length then p1.updateLengthS curveLimit else p1
    { p2 with
      zzzVertices := buildBuffer p2.vertices p2.lengths p2.length p2.closed p2.beginning p2.ending
      version := p2.version + 1 }
  else p

/-- The non-silent `#updateLength` entry point (used by the `length` getter):
it first runs `update()`, then recomputes the table. -/
def Path.updateLengthNS (p : Path) (limit : ℕ) : Path :=
  (p.update).updateLengthS limit

/-- The effect of reading the `length` getter: a dirty Length flag forces the
non-silent recomputation first. -/
def Path.normLength (p : Path) : Path :=
  if p.flags.length then p.updateLengthNS curveLimit else p

/-- The public `Path.getPointAt(t, anchor)`: reading `this.length` may force a
length recomputation (returned as the second component, since the getter
mutates the path), then the arc-length target is `length * min(max(t, 0), 1)`
and the segment search and population run on the refreshed state. -/
def Path.getPointAt (p : Path) (t : ℝ) (ank : Anchor) : GPRes × Path :=
  let q := p.normLength
  (getPointAtCore q.vertices q.lengths q.closed (q.length * clamp01 t) ank, q)

/-- `Path.flagReset(dirty)`: sets every flag the class owns to `dirty`. -/
def Path.flagReset (p : Path) (dirty : Bool) : Path :=
  { p with flags := ⟨dirty, dirty, dirty, dirty, dirty, dirty, dirty, dirty, dirty, dirty, dirty⟩ }

/-- The `strokeWidth` setter: on an actual change it stores the value and sets
only the Linewidth flag; otherwise it is a no-op. -/
def Path.setStrokeWidth (p : Path) (w : ℝ) : Path :=
  if p.strokeWidth ≠ w then { p with strokeWidth := w, flags := { p.flags with linewidth := true } } else p

/-- The `beginning` setter: stores the value and sets the Vertices flag. -/
def Path.setBeginning (p : Path) (b : ℝ) : Path :=
  { p with beginning := b, flags := { p.flags with vertices := true } }

/-- The `ending` setter: stores the value and sets the Vertices flag. -/
def Path.setEnding (p : Path) (e : ℝ) : Path :=
  { p with ending := e, flags := { p.flags with vertices := true } }

/-- The `vertices` setter: disposes the old collection-level insert/remove
subscriptions and installs fresh ones on the new collection, then subscribes to
the change event of every anchor already in the new collection (appending to
`#anchor_change_map`).  The per-anchor subscriptions of the previous
collection's anchors are not touched, and no dirty flag is written by the
setter itself (the insert/remove handlers set the Vertices flag only when a
later mutation fires them; the `Collection` event channel — not in this
snapshot — is modelled from the spec as emitting one aggregate notification
per structural mutation, so merely subscribing replays nothing). -/
def Path.setVertices (p : Path) (vs : List Anchor) : Path :=
  { p with
    vertices := vs
    collectionSub := true
    anchorSubs := p.anchorSubs ++ vs.map (·.id) }

/-- Modelled from the spec: mutating an Anchor's `origin` emits a change
notification synchronously (the reactive `Anchor` is not in this snapshot;
`ignore()`/`listen()` gate only the control-handle rebroadcasts), and each live
subscription the owning Path holds for that anchor sets the Vertices flag. -/
def Path.mutateAnchorOrigin (p : Path) (aid : ℕ) (v : Vec) : Path :=
  { p with
    vertices := p.vertices.map fun a => if a.id = aid then { a with origin := v } else a
    flags := if aid ∈ p.anchorSubs then { p.flags with vertices := true } else p.flags }

/-- The subscription invariant the `Path` maintains: every anchor of the
owned collection has a live change subscription. -/
def Path.subsOK (p : Path) : Prop :=
  ∀ a ∈ p.vertices, a.id ∈ p.anchorSubs

/-- The `Path` constructor: `flagReset(true)` followed by clearing Mask and
Clip, property initialisation through the setters (closed/curved from the
arguments, `beginning = 0`, `ending = 1`, `strokeWidth = 1`), installing the
vertex collection through the `vertices` setter, and `automatic = !manual`;
the buffer version counter starts at 0 with an empty buffer and an empty
length table. -/
def mkPath (vs : List Anchor) (closed curved manual : Bool) : Path :=
  { vertices := vs
    lengths := []
    length := 0
    closed := closed
    curved := curved
    automatic := !manual
    beginning := 0
    ending := 1
    flags := ⟨true, true, true, true, true, true, true, true, false, false, true⟩
    zzzVertices := []
    version := 0
    strokeWidth := 1
    anchorSubs := vs.map (·.id)
    collectionSub := true }

/-- Anchor literal helper for the concrete paths of the test properties. -/
def anch (x y : ℝ) (c : Cmd) (n : ℕ) : Anchor :=
  { id := n, origin := ⟨x, y⟩, command := c }

/-- The open L-shaped test path vertices `[(0,0), (3,0), (3,4)]`. -/
def vertsL : List Anchor := [anch 0 0 Cmd.move 0, anch 3 0 Cmd.line 1, anch 3 4 Cmd.line 2]

/-- Open, uncurved, automatic path on `vertsL`. -/
def pathC2 : Path := mkPath vertsL false false false

/-- The same path trimmed with `beginning = 0`, `ending = 0.5`. -/
def pathL : Path := pathC2.setEnding (1 / 2)

/-- The closed triangular test path vertices `[(0,0), (4,0), (0,4)]`. -/
def triVerts : List Anchor := [anch 0 0 Cmd.move 0, anch 4 0 Cmd.line 1, anch 0 4 Cmd.line 2]

/-- Closed, uncurved, automatic triangular path. -/
def pathTri : Path := mkPath triVerts true false false

/-- Five collinear vertices, used to leave a stale length-table tail behind. -/
def bigVerts : List Anchor :=
  [anch 0 0 Cmd.move 0, anch 1 0 Cmd.line 1, anch 2 0 Cmd.line 2, anch 3 0 Cmd.line 3, anch 4 0 Cmd.line 4]

/-- A path that recomputed lengths with five vertices and was then given the
three-vertex collection: its table keeps the stale five-entry shape. -/
def pathStale : Path :=
  (((mkPath bigVerts false false false).updateLengthS curveLimit).setVertices vertsL).updateLengthS curveLimit

/-- A single-vertex (hence zero-length) path, after length recomputation. -/
def pathZero : Path :=
  (mkPath [anch 0 0 Cmd.move 0] false false false).updateLengthS curveLimit

/-- A disposed-flags path owning one anchor (id 7), used for the subscription
claims. -/
def pathOld : Path :=
  (mkPath [anch 0 0 Cmd.move 7] false false false).flagReset false

/-- `pathOld` after its `vertices` property is assigned a fresh collection
holding a single different anchor (id 8). -/
def pathNew : Path :=
  pathOld.setVertices [anch 1 1 Cmd.move 8]

/-- The boundary anchor `update` synthesizes for `pathL` at `ending = 0.5`
(after the right-handle clear applied in the synthesis branch): `getPointAt`
resolves local parameter `t = 1/8` inside the second segment and evaluates the
degenerate cubic there, giving the origin `(3, 11/64)`. -/
def bufSY : Anchor :=
  { id := 0
    origin := ⟨3, 11 / 64⟩
    controlLeft := ⟨0, -(7 / 64)⟩
    controlRight := Vec.zero
    command := Cmd.line
    relative := true
    rx := 0
    ry := 0
    xAxisRotation := 0
    largeArcFlag := 0
    sweepFlag := 1
    t := 1 / 8 }

lemma dist_00_30 : dist ⟨0, 0⟩ ⟨3, 0⟩ = 3 := by
  rw [dist, show ((3 : ℝ) - 0) ^ 2 + ((0 : ℝ) - 0) ^ 2 = 3 ^ 2 by norm_num, Real.sqrt_sq (by norm_num)]

lemma dist_30_34 : dist ⟨3, 0⟩ ⟨3, 4⟩ = 4 := by
  rw [dist, show ((3 : ℝ) - 3) ^ 2 + ((4 : ℝ) - 0) ^ 2 = 4 ^ 2 by norm_num, Real.sqrt_sq (by norm_num)]

lemma dist_00_40 : dist ⟨0, 0⟩ ⟨4, 0⟩ = 4 := by
  rw [dist, show ((4 : ℝ) - 0) ^ 2 + ((0 : ℝ) - 0) ^ 2 = 4 ^ 2 by norm_num, Real.sqrt_sq (by norm_num)]

lemma dist_40_04 : dist ⟨4, 0⟩ ⟨0, 4⟩ = Real.sqrt 32 := by
  rw [dist]; norm_num

lemma dist_nonneg' (a b : Vec) : 0 ≤ dist a b := Real.sqrt_nonneg _

lemma getCurveLength_nonneg (a b : Anchor) (lim : ℕ) : 0 ≤ getCurveLength a b lim := by
  rw [getCurveLength]
  split
  · exact dist_nonneg' _ _
  · exact Finset.sum_nonneg fun k _ => dist_nonneg' _ _

lemma getCurveLength_straight (a b : Anchor) (ha : a.relative = true) (hb : b.relative = true)
    (hal : a.controlLeft = Vec.zero) (hbr : b.controlRight = Vec.zero) (lim : ℕ) :
    getCurveLength a b lim = dist b.origin a.origin := by
  rw [getCurveLength]
  rw [if_pos]
  refine ⟨?_, ?_, ?_, ?_⟩ <;> simp [Anchor.effRight, Anchor.effLeft, ha, hb, hal, hbr, Vec.zero]

lemma segLengths_vertsL (lim : ℕ) : segLengths vertsL lim = [0, 3, 4] := by
  have h1 : segLength vertsL lim 1 = 3 := by
    rw [segLength]
    norm_num [vertsL, List.get?]
    rw [getCurveLength_straight _ _ rfl rfl rfl rfl, show (anch 0 0 Cmd.move 0).origin = ⟨0, 0⟩ from rfl,
      show (anch 3 0 Cmd.line 1).origin = ⟨3, 0⟩ from rfl, dist_00_30]
    simp [anch]
  have h2 : segLength vertsL lim 2 = 4 := by
    rw [segLength]
    norm_num [vertsL, List.get?]
    rw [getCurveLength_straight _ _ rfl rfl rfl rfl, show (anch 3 0 Cmd.line 1).origin = ⟨3, 0⟩ from rfl,
      show (anch 3 4 Cmd.line 2).origin = ⟨3, 4⟩ from rfl, dist_30_34]
    simp [anch]
  have h0 : segLength vertsL lim 0 = 0 := by rw [segLength]; simp
  show (List.range vertsL.length).map (segLength vertsL lim) = _
  rw [show vertsL.length = 3 from rfl, show List.range 3 = [0, 1, 2] from rfl]
  simp [h0, h1, h2]

lemma segLengths_triVerts (lim : ℕ) : segLengths triVerts lim = [0, 4, Real.sqrt 32] := by
  have h1 : segLength triVerts lim 1 = 4 := by
    rw [segLength]
    norm_num [triVerts, List.get?]
    rw [getCurveLength_straight _ _ rfl rfl rfl rfl, show (anch 0 0 Cmd.move 0).origin = ⟨0, 0⟩ from rfl,
      show (anch 4 0 Cmd.line 1).origin = ⟨4, 0⟩ from rfl, dist_00_40]
    simp [anch]
  have h2 : segLength triVerts lim 2 = Real.sqrt 32 := by
    rw [segLength]
    norm_num [triVerts, List.get?]
    rw [getCurveLength_straight _ _ rfl rfl rfl rfl, show (anch 4 0 Cmd.line 1).origin = ⟨4, 0⟩ from rfl,
      show (anch 0 4 Cmd.line 2).origin = ⟨0, 4⟩ from rfl, dist_40_04]
    simp [anch]
  have h0 : segLength triVerts lim 0 = 0 := by rw [segLength]; simp
  show (List.range triVerts.length).map (segLength triVerts lim) = _
  rw [show triVerts.length = 3 from rfl, show List.range 3 = [0, 1, 2] from rfl]
  simp [h0, h1, h2]

lemma plotStraight_vertsL : plotStraight vertsL = vertsL := rfl

lemma clamp01_half : clamp01 (1 / 2) = 1 / 2 := by
  rw [clamp01]; norm_num

lemma walkSeg_L : walkSeg [0, 3, 4] (7 * clamp01 (1 / 2)) 0 = some (2, 1 / 8) := by
  rw [clamp01_half, walkSeg]
  rw [if_neg (by norm_num), walkSeg, if_neg (by norm_num), walkSeg, if_pos (by norm_num),
    if_neg (by norm_num)]
  norm_num

lemma gid_L_l : ⌈getIdByLength [0, 3, 4] 7 (0 * 7)⌉ = 0 := by
  rw [getIdByLength, if_pos (by norm_num)]
  exact Int.ceil_zero

lemma gid_L_u : ⌊getIdByLength [0, 3, 4] 7 (1 / 2 * 7)⌋ = 1 := by
  have h : getIdByLength [0, 3, 4] 7 (1 / 2 * 7) = 9 / 8 := by
    rw [getIdByLength, if_neg (by norm_num), if_neg (by norm_num)]
    rw [show List.drop 1 [(0 : ℝ), 3, 4] = [3, 4] from rfl, show (1 / 2 * 7 : ℝ) = 7 / 2 by norm_num]
    rw [fracIndexAux, if_neg (by norm_num), fracIndexAux, if_pos (by norm_num)]
    norm_num
  rw [h, Int.floor_eq_iff]
  norm_num

lemma contains_L_0 : containsPos [0, 3, 4] 7 0 := Or.inl rfl

lemma contains_L_half : ¬ containsPos [0, 3, 4] 7 (1 / 2) := by
  rintro (h | h | ⟨k, hk, hs⟩)
  · norm_num at h
  · norm_num at h
  · simp only [List.length_cons, List.length_nil] at hk
    interval_cases k <;> norm_num [List.take] at hs

lemma mut_L :
    getPointAtMut [anch 0 0 Cmd.move 0, anch 3 0 Cmd.line 1, anch 3 4 Cmd.line 2] [0, 3, 4] 7 false
      (1 / 2) (anch 3 4 Cmd.line 0) =
      { bufSY with controlRight := ⟨0, 49 / 64⟩ } := by
  rw [getPointAtMut, getPointAtCore]
  rw [walkSeg_L]
  simp only [getAtZ]
  norm_num [List.get?, resolvePair]
  rw [populate]
  simp only [anch, Anchor.effRight, Anchor.effLeft, lerp, bezc, bufSY]
  norm_num [Vec.zero]

lemma bufStep_L_0 :
    bufStep vertsL [0, 3, 4] 7 false 0 (1 / 2) 0 1 ⟨[], false, false⟩ 0 =
      ⟨[(0, anch 0 0 Cmd.move 0)], false, true⟩ := by
  simp only [bufStep, vertsL, List.get?]
  rw [if_neg (by simp), if_pos (by norm_num), if_neg (by simp), if_pos ⟨rfl, contains_L_0⟩]
  simp [anch]

lemma bufStep_L_1 :
    bufStep vertsL [0, 3, 4] 7 false 0 (1 / 2) 0 1 ⟨[(0, anch 0 0 Cmd.move 0)], false, true⟩ 1 =
      ⟨[(0, anch 0 0 Cmd.move 0), (1, anch 3 0 Cmd.line 0)], false, true⟩ := by
  simp only [bufStep, vertsL, List.get?]
  rw [if_neg (by simp), if_pos (by norm_num), if_neg (fun h => contains_L_half h.2),
    if_neg (by simp)]
  simp [anch]

lemma bufStep_L_2 :
    bufStep vertsL [0, 3, 4] 7 false 0 (1 / 2) 0 1
      ⟨[(0, anch 0 0 Cmd.move 0), (1, anch 3 0 Cmd.line 0)], false, true⟩ 2 =
      ⟨[(0, anch 0 0 Cmd.move 0), (1, anch 3 0 Cmd.line 0), (2, bufSY)], true, true⟩ := by
  simp only [bufStep, vertsL, List.get?]
  rw [if_pos ⟨by norm_num, by trivial⟩]
  rw [show ({ anch 3 4 Cmd.line 2 with id := 0, t := 0 } : Anchor) = anch 3 4 Cmd.line 0 from rfl]
  rw [mut_L]
  simp only [setRightAt, projRightHandle, List.map, anch, bufSY, Vec.lerp, Vec.zero, lerp]
  norm_num [Anchor.mk.injEq, Vec.mk.injEq]

lemma buffer_L :
    buildBuffer vertsL [0, 3, 4] 7 false 0 (1 / 2) =
      [anch 0 0 Cmd.move 0, anch 3 0 Cmd.line 0, bufSY] := by
  simp only [buildBuffer]
  simp only [show min (0 : ℝ) (1 / 2) = 0 by norm_num, show max (0 : ℝ) (1 / 2) = 1 / 2 by norm_num]
  rw [gid_L_l, gid_L_u]
  rw [show List.range vertsL.length = [0, 1, 2] from rfl]
  simp only [List.foldl]
  rw [bufStep_L_0, bufStep_L_1, bufStep_L_2]
  rw [if_neg (by simp)]
  simp

lemma pathL_update_buffer :
    (pathL.update).zzzVertices = [anch 0 0 Cmd.move 0, anch 3 0 Cmd.line 0, bufSY] := by
  have h : (pathL.update).zzzVertices =
      buildBuffer vertsL (segLengths vertsL curveLimit ++ List.drop 3 ([] : List ℝ))
        (segLengths vertsL curveLimit).sum false 0 (1 / 2) := rfl
  rw [h, segLengths_vertsL]
  rw [show ([(0 : ℝ), 3, 4] ++ List.drop 3 ([] : List ℝ)) = [0, 3, 4] from rfl]
  rw [show ([(0 : ℝ), 3, 4]).sum = 7 by norm_num]
  exact buffer_L

lemma plotStraightAux_idem (vs : List Anchor) : ∀ i, plotStraightAux i (plotStraightAux i vs) = plotStraightAux i vs := by
  induction vs with
  | nil => intro i; rfl
  | cons a rest ih => intro i; simp [plotStraightAux, ih (i + 1)]

lemma curveAux_map_origin (os : List Vec) (c : Bool) (vs : List Anchor) :
    ∀ i, (curveAux os c i vs).map (·.origin) = vs.map (·.origin) := by
  induction vs with
  | nil => intro i; rfl
  | cons a rest ih => intro i; simp [curveAux, ih (i + 1)]

lemma curveAux_idem (os : List Vec) (c : Bool) (vs : List Anchor) :
    ∀ i, curveAux os c i (curveAux os c i vs) = curveAux os c i vs := by
  induction vs with
  | nil => intro i; rfl
  | cons a rest ih => intro i; simp [curveAux, ih (i + 1)]

lemma getCurveFromPoints_idem (vs : List Anchor) (c : Bool) :
    getCurveFromPoints (getCurveFromPoints vs c) c = getCurveFromPoints vs c := by
  rw [getCurveFromPoints, getCurveFromPoints]
  rw [show (curveAux (vs.map (·.origin)) c 0 vs).map (·.origin) = vs.map (·.origin) from
    curveAux_map_origin _ _ _ 0]
  exact curveAux_idem _ _ _ 0

lemma plotStraight_idem (vs : List Anchor) : plotStraight (plotStraight vs) = plotStraight vs :=
  plotStraightAux_idem vs 0

lemma plot_vertices_eq (q r : Path) (h1 : q.curved = r.curved) (h2 : q.closed = r.closed)
    (h3 : q.vertices = r.vertices) : (q.plot).vertices = (r.plot).vertices := by
  simp only [Path.plot, h1, h2, h3]

lemma plot_plot_vertices (q : Path) : ((q.plot).plot).vertices = (q.plot).vertices := by
  by_cases hc : q.curved = true
  · simp only [Path.plot, hc, if_true]
    exact getCurveFromPoints_idem _ _
  · simp only [Path.plot, hc, if_false]
    exact plotStraight_idem _

lemma update_zzz (p : Path) (hv : p.flags.vertices = true) :
    (p.update).zzzVertices =
      buildBuffer (p.update).vertices (p.update).lengths (p.update).length (p.update).closed
        (p.update).beginning (p.update).ending := by
  simp only [Path.update]
  rw [if_pos hv]

lemma flags_update_self (f : Flags) (h : f.length = false) :
    ({ f with length := false } : Flags) = f := by
  ext <;> simp [h]

lemma update_flags (p : Path) (hv : p.flags.vertices = true) :
    (p.update).flags = { p.flags with length := false } := by
  simp only [Path.update]
  rw [if_pos hv]
  by_cases ha : p.automatic = true <;> by_cases hl : p.flags.length = true <;>
    simp only [ha, hl, Path.plot, Path.updateLengthS, eq_self_iff_true, if_true, if_false] <;>
    simp [ha, hl]
  all_goals
    have hpl : p.flags.length = false := by
      cases hx : p.flags.length
      · rfl
      · exact absurd hx hl
    exact (flags_update_self p.flags hpl).symm

lemma update_version (p : Path) (hv : p.flags.vertices = true) :
    (p.update).version = p.version + 1 := by
  simp only [Path.update]
  rw [if_pos hv]
  by_cases ha : p.automatic = true <;> by_cases hl : p.flags.length = true <;>
    simp [ha, hl, Path.plot, Path.updateLengthS]

lemma update_vertices (p : Path) (hv : p.flags.vertices = true) :
    (p.update).vertices = (if p.automatic then p.plot else p).vertices := by
  simp only [Path.update]
  rw [if_pos hv]
  by_cases ha : p.automatic = true <;> by_cases hl : p.flags.length = true <;>
    simp [ha, hl, Path.plot, Path.updateLengthS]

lemma update_lengths_stable (p : Path) (hv : p.flags.vertices = true) (hl : p.flags.length = false) :
    (p.update).lengths = p.lengths := by
  simp only [Path.update]
  rw [if_pos hv]
  by_cases ha : p.automatic = true <;>
    simp [ha, hl, Path.plot, Path.updateLengthS]

lemma update_length_stable (p : Path) (hv : p.flags.vertices = true) (hl : p.flags.length = false) :
    (p.update).length = p.length := by
  simp only [Path.update]
  rw [if_pos hv]
  by_cases ha : p.automatic = true <;>
    simp [ha, hl, Path.plot, Path.updateLengthS]

lemma update_closed (p : Path) (hv : p.flags.vertices = true) : (p.update).closed = p.closed := by
  simp only [Path.update]
  rw [if_pos hv]
  by_cases ha : p.automatic = true <;> by_cases hl : p.flags.length = true <;>
    simp [ha, hl, Path.plot, Path.updateLengthS]

lemma update_curved (p : Path) (hv : p.flags.vertices = true) : (p.update).curved = p.curved := by
  simp only [Path.update]
  rw [if_pos hv]
  by_cases ha : p.automatic = true <;> by_cases hl : p.flags.length = true <;>
    simp [ha, hl, Path.plot, Path.updateLengthS]

lemma update_automatic (p : Path) (hv : p.flags.vertices = true) :
    (p.update).automatic = p.automatic := by
  simp only [Path.update]
  rw [if_pos hv]
  by_cases ha : p.automatic = true <;> by_cases hl : p.flags.length = true <;>
    simp [ha, hl, Path.plot, Path.updateLengthS]

lemma update_beginning (p : Path) (hv : p.flags.vertices = true) :
    (p.update).beginning = p.beginning := by
  simp only [Path.update]
  rw [if_pos hv]
  by_cases ha : p.automatic = true <;> by_cases hl : p.flags.length = true <;>
    simp [ha, hl, Path.plot, Path.updateLengthS]

lemma update_ending (p : Path) (hv : p.flags.vertices = true) : (p.update).ending = p.ending := by
  simp only [Path.update]
  rw [if_pos hv]
  by_cases ha : p.automatic = true <;> by_cases hl : p.flags.length = true <;>
    simp [ha, hl, Path.plot, Path.updateLengthS]

lemma update_update_zzz (p : Path) (hv : p.flags.vertices = true) :
    ((p.update).update).zzzVertices = (p.update).zzzVertices := by
  have hUf := update_flags p hv
  have hUv : (p.update).flags.vertices = true := by rw [hUf]; exact hv
  have hUl : (p.update).flags.length = false := by rw [hUf]
  have hverts : ((p.update).update).vertices = (p.update).vertices := by
    rw [update_vertices (p.update) hUv]
    by_cases ha : p.automatic = true
    · rw [if_pos (show (p.update).automatic = true by rw [update_automatic p hv]; exact ha)]
      have h1 : ((p.update).plot).vertices = ((p.plot).plot).vertices :=
        plot_vertices_eq _ _ (by rw [update_curved p hv]; rfl) (by rw [update_closed p hv]; rfl)
          (by rw [update_vertices p hv, if_pos ha])
      rw [h1, plot_plot_vertices]
      rw [update_vertices p hv, if_pos ha]
    · rw [if_neg (show ¬((p.update).automatic = true) by rw [update_automatic p hv]; exact ha)]
  rw [update_zzz (p.update) hUv, hverts, update_lengths_stable (p.update) hUv hUl,
    update_length_stable (p.update) hUv hUl, update_closed (p.update) hUv,
    update_beginning (p.update) hUv, update_ending (p.update) hUv]
  exact (update_zzz p hv).symm

lemma getPointAt_fst (p : Path) (hl : p.flags.length = false) (t : ℝ) (ank : Anchor) :
    (p.getPointAt t ank).fst = getPointAtCore p.vertices p.lengths p.closed (p.length * clamp01 t) ank := by
  rw [Path.getPointAt, Path.normLength, if_neg (by rw [hl]; simp)]

lemma walkSeg_found : ∀ (ls : List ℝ) (rem : ℝ) (i : ℕ), ls ≠ [] → 0 ≤ rem → rem ≤ ls.sum →
    ∃ j lt, walkSeg ls rem i = some (j, lt) ∧ j < i + ls.length := by
  intro ls
  induction ls with
  | nil => intro rem i h; exact absurd rfl h
  | cons l rest ih =>
    intro rem i _ h0 hsum
    by_cases hr : rem ≤ l
    · exact ⟨i, _, by rw [walkSeg, if_pos hr], by simp⟩
    · push_neg at hr
      have hrest : rest ≠ [] := by
        rintro rfl
        simp only [List.sum_cons, List.sum_nil, add_zero] at hsum
        linarith
      obtain ⟨j, lt, hw, hj⟩ := ih (rem - l) (i + 1) hrest (by linarith)
        (by simp only [List.sum_cons] at hsum; linarith)
      refine ⟨j, lt, ?_, ?_⟩
      · rw [walkSeg, if_neg (by linarith)]
        exact hw
      · simp only [List.length_cons]
        omega

lemma walkSeg_spec : ∀ (ls : List ℝ) (rem : ℝ) (i j : ℕ) (lt : ℝ),
    (∀ l ∈ ls, 0 ≤ l) → 0 ≤ rem → walkSeg ls rem i = some (j, lt) →
    i ≤ j ∧ j - i < ls.length ∧ (ls.get? (j - i) = some 0 → lt = 0) ∧ 0 ≤ lt ∧ lt ≤ 1 := by
  intro ls
  induction ls with
  | nil => intro rem i j lt _ _ h; exact Option.noConfusion h
  | cons l rest ih =>
    intro rem i j lt hnn h0 hw
    rw [walkSeg] at hw
    by_cases hr : rem ≤ l
    · rw [if_pos hr] at hw
      simp only [Option.some.injEq, Prod.mk.injEq] at hw
      obtain ⟨hj, hlt⟩ := hw
      subst hj
      refine ⟨le_refl i, by simp, ?_, ?_, ?_⟩
      · intro hg
        rw [Nat.sub_self] at hg
        simp only [List.get?] at hg
        have hl0 : l = 0 := by injection hg
        rw [← hlt, if_pos hl0]
      · rcases eq_or_ne l 0 with h | h
        · rw [← hlt, if_pos h]
        · rw [← hlt, if_neg h]
          have hlp : 0 < l := lt_of_le_of_ne (hnn l (List.mem_cons_self l rest)) (Ne.symm h)
          exact div_nonneg h0 (le_of_lt hlp)
      · rcases eq_or_ne l 0 with h | h
        · rw [← hlt, if_pos h]; norm_num
        · rw [← hlt, if_neg h]
          have hlp : 0 < l := lt_of_le_of_ne (hnn l (List.mem_cons_self l rest)) (Ne.symm h)
          exact div_le_one_of_le₀ hr (le_of_lt hlp)
    · rw [if_neg hr] at hw
      push_neg at hr
      obtain ⟨h1, h2, h3, h4, h5⟩ := ih (rem - l) (i + 1) j lt
        (fun x hx => hnn x (List.mem_cons_of_mem l hx)) (by linarith) hw
      refine ⟨by omega, by simp only [List.length_cons]; omega, ?_, h4, h5⟩
      intro hg
      apply h3
      have hji : j - i = (j - (i + 1)) + 1 := by omega
      rw [hji] at hg
      simpa using hg

lemma jsmod_bounds (v n : ℤ) (hn : 0 < n) : 0 ≤ jsmod v n ∧ jsmod v n < n := by
  rw [jsmod, if_pos hn]
  exact ⟨Int.emod_nonneg v (ne_of_gt hn), Int.emod_lt_of_pos v hn⟩

lemma getAtZ_some (vs : List Anchor) (i : ℤ) (h0 : 0 ≤ i) (hlt : i < (vs.length : ℤ)) :
    ∃ a, getAtZ vs i = some a := by
  rw [getAtZ, if_neg (not_lt.mpr h0)]
  have hlt' : i.toNat < vs.length := by omega
  exact ⟨vs.get ⟨i.toNat, hlt'⟩, List.get?_eq_get hlt'⟩

lemma resolvePair_point (vs : List Anchor) (ia ib : ℤ) (k : Anchor → Anchor → GPRes)
    (h1 : 0 ≤ ia) (h2 : ia < (vs.length : ℤ)) (h3 : 0 ≤ ib) (h4 : ib < (vs.length : ℤ))
    (hk : ∀ a b, ∃ c, k a b = GPRes.point c) :
    ∃ c, resolvePair (getAtZ vs ia) (getAtZ vs ib) k = GPRes.point c := by
  obtain ⟨a, hA⟩ := getAtZ_some vs ia h1 h2
  obtain ⟨b, hB⟩ := getAtZ_some vs ib h3 h4
  rw [hA, hB]
  obtain ⟨c, hc⟩ := hk a b
  exact ⟨c, hc⟩

lemma core_point (vs : List Anchor) (lengths : List ℝ) (closed : Bool) (target : ℝ) (ank : Anchor)
    (hne : vs ≠ []) (hsync : lengths.length = vs.length)
    (h0 : 0 ≤ target) (hs : target ≤ lengths.sum) :
    ∃ a, getPointAtCore vs lengths closed target ank = GPRes.point a := by
  have hvpos : 0 < vs.length := List.length_pos.mpr hne
  have hlne : lengths ≠ [] := by
    intro h
    rw [h] at hsync
    exact hne (List.length_eq_zero.mp hsync.symm)
  obtain ⟨j, lt, hw, hj⟩ := walkSeg_found lengths target 0 hlne h0 hs
  have hjlen : j < vs.length := by rw [← hsync]; simpa using hj
  have hnz : (0 : ℤ) < (vs.length : ℤ) := by exact_mod_cast hvpos
  simp only [getPointAtCore, hw]
  rcases Bool.dichotomy closed with hc | hc
  · subst hc
    simp only [Bool.false_eq_true, if_false]
    refine resolvePair_point vs _ _ _ ?_ ?_ ?_ ?_ (fun a b => ⟨populate ank a b lt, rfl⟩)
    · exact Int.ofNat_nonneg j
    · exact_mod_cast hjlen
    · refine le_min (le_max_right _ _) ?_
      omega
    · have : min (max ((j : ℤ) - 1) 0) ((vs.length : ℤ) - 1) ≤ (vs.length : ℤ) - 1 := min_le_right _ _
      omega
  · subst hc
    simp only [if_true]
    by_cases hj0 : j = 0
    · subst hj0
      simp only [eq_self_iff_true, if_true]
      refine resolvePair_point vs _ _ _ (jsmod_bounds _ _ hnz).1 (jsmod_bounds _ _ hnz).2
        (by omega) (by omega) (fun a b => ⟨populate ank a b lt, rfl⟩)
    · simp only [hj0, if_false]
      exact resolvePair_point vs _ _ _ (jsmod_bounds _ _ hnz).1 (jsmod_bounds _ _ hnz).2
        (jsmod_bounds _ _ hnz).1 (jsmod_bounds _ _ hnz).2 (fun a b => ⟨populate ank a b lt, rfl⟩)

lemma pathTri_lengths : (pathTri.updateLengthS curveLimit).lengths = [0, 4, Real.sqrt 32] := by
  show segLengths pathTri.vertices curveLimit ++ pathTri.lengths.drop pathTri.vertices.length = _
  rw [show pathTri.vertices = triVerts from rfl, segLengths_triVerts]
  rfl

lemma pathTri_length : (pathTri.updateLengthS curveLimit).length = 4 + Real.sqrt 32 := by
  show (segLengths pathTri.vertices curveLimit).sum = _
  rw [show pathTri.vertices = triVerts from rfl, segLengths_triVerts]
  simp

lemma pathStale_len5 : (pathStale.lengths).length = 5 := rfl

lemma pathStale_verts : pathStale.vertices = vertsL := rfl

lemma pathZero_lengths : pathZero.lengths = [0] := rfl

lemma pathZero_length : pathZero.length = 0 := by
  have h : pathZero.length = ([0] : List ℝ).sum := rfl
  rw [h]
  simp

/-- C1 (counterexample): for the open uncurved path with vertices
[(0,0), (3,0), (3,4)], beginning 0 and ending 0.5, the last point of the render
vertex buffer produced by update() does not lie at (3, 1.5). -/
theorem C1_counterexample :
    ((pathL.update).zzzVertices.getLast?).map (·.origin) ≠ some (⟨3, 3 / 2⟩ : Vec) := by
  rw [pathL_update_buffer]
  rw [show ([anch 0 0 Cmd.move 0, anch 3 0 Cmd.line 0, bufSY].getLast?) = some bufSY from rfl]
  intro h
  simp only [Option.map_some', Option.some.injEq] at h
  have h2 : (11 : ℝ) / 64 = 3 / 2 := congrArg Vec.y h
  norm_num at h2

/-- C1 (amended): for the open uncurved path with vertices [(0,0), (3,0), (3,4)],
beginning 0 and ending 0.5, the last point of the render vertex buffer produced
by update() lies at (3, 11/64): the boundary anchor is synthesized by
getPointAt(0.5), whose local parameter inside the enclosing segment is the
bezier parameter 1/8 (arc-length remainder 0.5 over segment length 4), and the
degenerate cubic parametrization of the straight segment is not arc-length
linear, giving y = 4·t²·(3 − 2t) = 11/64. -/
theorem C1_trim_last_point :
    ((pathL.update).zzzVertices.getLast?).map (·.origin) = some (⟨3, 11 / 64⟩ : Vec) := by
  rw [pathL_update_buffer]
  rfl

/-- C2 (amended): for every open path with exactly the vertices
[(0,0), (3,0), (3,4)] connected by straight segments, recomputing lengths gives
total length 7 and writes [0, 3, 4] into the first three table entries; the
table equals [0, 3, 4] exactly when it did not have more than three (stale)
entries beforehand, since the recomputation never truncates the array. -/
theorem C2_lengths_table (p : Path) (hv : p.vertices = vertsL) (_hc : p.closed = false) (lim : ℕ) :
    (p.updateLengthS lim).length = 7 ∧
      ((p.updateLengthS lim).lengths).take 3 = [0, 3, 4] ∧
      (p.lengths.length ≤ 3 → (p.updateLengthS lim).lengths = [0, 3, 4]) := by
  have hls : (p.updateLengthS lim).lengths = [0, 3, 4] ++ p.lengths.drop 3 := by
    show segLengths p.vertices lim ++ p.lengths.drop p.vertices.length = _
    rw [hv, segLengths_vertsL]
    rfl
  refine ⟨?_, ?_, ?_⟩
  · show (segLengths p.vertices lim).sum = 7
    rw [hv, segLengths_vertsL]
    norm_num
  · rw [hls]
    rfl
  · intro h
    rw [hls, List.drop_eq_nil_of_le h, List.append_nil]

/-- C2 (counterexample): an open path holding exactly the vertices
[(0,0), (3,0), (3,4)] whose length table still has five stale entries from an
earlier five-vertex recomputation does not end up with lengths = [0, 3, 4]
after recomputation (pathStale is precisely that recomputation). -/
theorem C2_counterexample :
    (((mkPath bigVerts false false false).updateLengthS curveLimit).setVertices vertsL).vertices = vertsL ∧
      (((mkPath bigVerts false false false).updateLengthS curveLimit).setVertices vertsL).closed = false ∧
      pathStale.lengths ≠ [0, 3, 4] := by
  refine ⟨rfl, rfl, fun h => ?_⟩
  have h5 := pathStale_len5
  rw [h] at h5
  norm_num at h5

/-- C2 (witness): the freshly constructed path on those vertices. -/
theorem C2_witness :
    pathC2.vertices = vertsL ∧ pathC2.closed = false ∧ pathC2.lengths.length ≤ 3 ∧
      ((pathC2.updateLengthS curveLimit).length = 7 ∧
        (pathC2.updateLengthS curveLimit).lengths = [0, 3, 4]) :=
  ⟨rfl, rfl, by rw [show pathC2.lengths = ([] : List ℝ) from rfl]; simp,
    (C2_lengths_table pathC2 rfl rfl curveLimit).1,
    (C2_lengths_table pathC2 rfl rfl curveLimit).2.2
      (by rw [show pathC2.lengths = ([] : List ℝ) from rfl]; simp)⟩

/-- C3: the closed triangular path [(0,0), (4,0), (0,4)] does get a three-entry
length table, but the recomputed total is 4 + √32 — the wrap-around segment
(length 4, from (0,4) back to (0,0)) is not included, because #updateLength
hard-codes closed to false, leaving its own wrap-around branch dead. -/
theorem C3_closed_no_wrap :
    ((pathTri.updateLengthS curveLimit).lengths).length = 3 ∧
      (pathTri.updateLengthS curveLimit).length = 4 + Real.sqrt 32 ∧
      (pathTri.updateLengthS curveLimit).length ≠ 4 + Real.sqrt 32 + 4 := by
  refine ⟨by rw [pathTri_lengths]; rfl, pathTri_length, ?_⟩
  rw [pathTri_length]
  intro h
  linarith

/-- C4 (amended): calling update() twice in a row on a Vertices-dirty Path with
no intervening mutation produces identical render vertex buffers; however
update() does not clear the Vertices flag (flag clearing belongs to flagReset),
so the flag is still set after the first call and the second call increments
the buffer version counter again even though the buffer is unchanged. -/
theorem C4_update_idempotent (p : Path) (hv : p.flags.vertices = true) :
    ((p.update).update).zzzVertices = (p.update).zzzVertices ∧
      (p.update).flags.vertices = true ∧
      ((p.update).update).version = (p.update).version + 1 := by
  have hUv : (p.update).flags.vertices = true := by rw [update_flags p hv]; exact hv
  exact ⟨update_update_zzz p hv, hUv, update_version (p.update) hUv⟩

/-- C4 (counterexample): on the concrete triangular path it is not the case
that the first update() leaves the Vertices flag cleared and the second
update() leaves the version counter unchanged. -/
theorem C4_counterexample :
    ¬ ((pathTri.update).flags.vertices = false ∧
        ((pathTri.update).update).version = (pathTri.update).version) := by
  rintro ⟨h1, _⟩
  have hUv : (pathTri.update).flags.vertices = true := by
    rw [update_flags pathTri rfl]
    rfl
  rw [hUv] at h1
  exact Bool.noConfusion h1

/-- C4 (witness): the triangular path is Vertices-dirty on construction. -/
theorem C4_witness :
    pathTri.flags.vertices = true ∧
      (((pathTri.update).update).zzzVertices = (pathTri.update).zzzVertices ∧
        (pathTri.update).flags.vertices = true ∧
        ((pathTri.update).update).version = (pathTri.update).version + 1) :=
  ⟨rfl, C4_update_idempotent pathTri rfl⟩

/-- C5: assigning a new Collection to a Path's vertices property keeps the old
anchor's change listener live in the subscription map (id 7 is still
subscribed after the reassignment — the leak the spec forbids), does not mark
the Vertices flag dirty, and does subscribe the new collection's anchor
(id 8). -/
theorem C5_vertices_setter_leak :
    7 ∈ pathNew.anchorSubs ∧ pathNew.flags.vertices = false ∧ 8 ∈ pathNew.anchorSubs := by
  have h : pathNew.anchorSubs = [7, 8] := rfl
  refine ⟨?_, rfl, ?_⟩ <;> rw [h] <;> simp

/-- C6 (amended): after a length recomputation the table has
max(vertices.length, previous table length) entries: one entry per vertex is
written, but a longer stale table is never truncated, so the claimed invariant
lengths.length == vertices.length holds only when the table was not longer
beforehand. -/
theorem C6_lengths_size (p : Path) (lim : ℕ) :
    ((p.updateLengthS lim).lengths).length = max p.vertices.length p.lengths.length := by
  show (segLengths p.vertices lim ++ p.lengths.drop p.vertices.length).length = _
  rw [List.length_append, segLengths, List.length_map, List.length_range, List.length_drop]
  omega

/-- C6 (counterexample): after shrinking the vertex collection from five
vertices to three and recomputing, the table still has five entries. -/
theorem C6_counterexample :
    pathStale.lengths.length ≠ pathStale.vertices.length := by
  intro h
  have h5 := pathStale_len5
  rw [h, pathStale_verts] at h5
  norm_num [vertsL] at h5

/-- C7 (amended): on a path whose state is in sync with a length recomputation
(table parallel to the vertices, nonnegative entries, stored total equal to the
table sum, Length flag clear), getPointAt returns the sentinel exactly when the
vertex set is empty, and on a nonempty vertex set it returns a populated
anchor; in particular a zero-length path that still has vertices succeeds
rather than returning the sentinel the claim predicts for it. -/
theorem C7_sentinel_iff (p : Path) (t : ℝ) (ank : Anchor)
    (hfl : p.flags.length = false)
    (hsync : p.lengths.length = p.vertices.length)
    (hnn : ∀ l ∈ p.lengths, 0 ≤ l)
    (htot : p.length = p.lengths.sum) :
    ((p.getPointAt t ank).fst = GPRes.sentinel ↔ p.vertices = []) ∧
      (p.vertices ≠ [] → ∃ a, (p.getPointAt t ank).fst = GPRes.point a) := by
  rw [getPointAt_fst p hfl]
  have hsum0 : 0 ≤ p.lengths.sum := List.sum_nonneg hnn
  have h0 : 0 ≤ p.length * clamp01 t := by
    rw [htot]
    exact mul_nonneg hsum0 (le_min (le_max_right t 0) zero_le_one)
  have hs : p.length * clamp01 t ≤ p.lengths.sum := by
    rw [htot]
    calc p.lengths.sum * clamp01 t ≤ p.lengths.sum * 1 :=
        mul_le_mul_of_nonneg_left (min_le_right _ _) hsum0
      _ = p.lengths.sum := mul_one _
  constructor
  · constructor
    · intro hsent
      by_contra hne
      obtain ⟨a, ha⟩ := core_point p.vertices p.lengths p.closed _ ank hne hsync h0 hs
      rw [ha] at hsent
      exact GPRes.noConfusion hsent
    · intro hnil
      have hln : p.lengths = [] := by
        rw [hnil] at hsync
        exact List.length_eq_zero.mp (by simpa using hsync)
      rw [hln]
      rfl
  · intro hne
    exact core_point p.vertices p.lengths p.closed _ ank hne hsync h0 hs

/-- C7 (counterexample): the single-vertex zero-length path does not return the
sentinel from getPointAt, contrary to the claim's example. -/
theorem C7_counterexample :
    (pathZero.getPointAt (1 / 2) (anch 0 0 Cmd.move 0)).fst ≠ GPRes.sentinel := by
  rw [getPointAt_fst pathZero rfl]
  obtain ⟨a, ha⟩ := core_point pathZero.vertices pathZero.lengths pathZero.closed
    (pathZero.length * clamp01 (1 / 2)) (anch 0 0 Cmd.move 0)
    (by rw [show pathZero.vertices = [anch 0 0 Cmd.move 0] from rfl]; simp)
    rfl
    (by rw [pathZero_length]; simp)
    (by rw [pathZero_length, pathZero_lengths]; simp)
  rw [ha]
  exact fun h => GPRes.noConfusion h

/-- C7 (witness): the single-vertex zero-length path satisfies the sync
hypotheses and getPointAt populates the anchor on it. -/
theorem C7_witness :
    pathZero.flags.length = false ∧ pathZero.lengths.length = pathZero.vertices.length ∧
      pathZero.vertices ≠ [] ∧
      (∃ a, (pathZero.getPointAt (1 / 2) (anch 0 0 Cmd.move 0)).fst = GPRes.point a) :=
  ⟨rfl, rfl, by rw [show pathZero.vertices = [anch 0 0 Cmd.move 0] from rfl]; simp,
    (C7_sentinel_iff pathZero (1 / 2) (anch 0 0 Cmd.move 0) rfl rfl
      (by rw [pathZero_lengths]; simp)
      (by rw [pathZero_length, pathZero_lengths]; simp)).2
      (by rw [show pathZero.vertices = [anch 0 0 Cmd.move 0] from rfl]; simp)⟩

/-- C8: the segment-search loop of getPointAt (walkSeg) sets the local
parameter to 0 instead of dividing when the enclosing segment has length zero,
and on any table with nonnegative entries and a nonnegative target the local
parameter it produces always lies in [0, 1] — no division by zero occurs. -/
theorem C8_zero_length_guard (ls : List ℝ) (rem : ℝ) (j : ℕ) (lt : ℝ)
    (hnn : ∀ l ∈ ls, 0 ≤ l) (h0 : 0 ≤ rem) (hw : walkSeg ls rem 0 = some (j, lt)) :
    (ls.get? j = some 0 → lt = 0) ∧ 0 ≤ lt ∧ lt ≤ 1 := by
  obtain ⟨_, _, h3, h4, h5⟩ := walkSeg_spec ls rem 0 j lt hnn h0 hw
  exact ⟨by simpa using h3, h4, h5⟩

/-- C8 (witness): the search on table [0, 3, 4] with target 3.5 ends in
segment 2 with local parameter 1/8. -/
theorem C8_witness :
    (∀ l ∈ ([0, 3, 4] : List ℝ), 0 ≤ l) ∧ 0 ≤ 7 * clamp01 (1 / 2) ∧
      ((([0, 3, 4] : List ℝ).get? 2 = some 0 → (1 / 8 : ℝ) = 0) ∧
        0 ≤ (1 / 8 : ℝ) ∧ (1 / 8 : ℝ) ≤ 1) :=
  ⟨by norm_num, by rw [clamp01_half]; norm_num,
    C8_zero_length_guard [0, 3, 4] (7 * clamp01 (1 / 2)) 2 (1 / 8) (by norm_num)
      (by rw [clamp01_half]; norm_num) walkSeg_L⟩

/-- C9: the strokeWidth setter never touches the Vertices flag — it is a no-op
on an unchanged value and on a real change it stores the value and sets only
the Linewidth flag; and mutating the origin of an anchor owned by a Path (all
owned anchors carry a live change subscription) always sets the Vertices flag
on that Path. -/
theorem C9_flag_minimality (p : Path) (w : ℝ) (a : Anchor) (v : Vec) :
    ((p.setStrokeWidth w).flags.vertices = p.flags.vertices ∧
      (w = p.strokeWidth → p.setStrokeWidth w = p) ∧
      (w ≠ p.strokeWidth → (p.setStrokeWidth w).flags = { p.flags with linewidth := true } ∧
        (p.setStrokeWidth w).strokeWidth = w)) ∧
    (p.subsOK → a ∈ p.vertices → (p.mutateAnchorOrigin a.id v).flags.vertices = true) := by
  refine ⟨⟨?_, ?_, ?_⟩, ?_⟩
  · rw [Path.setStrokeWidth]
    by_cases h : p.strokeWidth ≠ w
    · rw [if_pos h]
    · rw [if_neg h]
  · intro h
    rw [Path.setStrokeWidth, if_neg (fun hne => hne h.symm)]
  · intro h
    rw [Path.setStrokeWidth, if_pos (fun he => h he.symm)]
    exact ⟨rfl, rfl⟩
  · intro hs hm
    show (if a.id ∈ p.anchorSubs then { p.flags with vertices := true } else p.flags).vertices = true
    rw [if_pos (hs a hm)]

/-- C9 (witness): on a path with cleared flags owning anchor id 7, mutating
that anchor's origin sets the Vertices flag, and setting strokeWidth to a new
value sets only the Linewidth flag. -/
theorem C9_witness :
    pathOld.subsOK ∧ (anch 0 0 Cmd.move 7) ∈ pathOld.vertices ∧
      (5 : ℝ) ≠ pathOld.strokeWidth ∧
      ((pathOld.mutateAnchorOrigin (anch 0 0 Cmd.move 7).id ⟨1, 2⟩).flags.vertices = true ∧
        (pathOld.setStrokeWidth 5).flags = { pathOld.flags with linewidth := true }) := by
  have hsub : pathOld.subsOK := by
    intro a ha
    rw [show pathOld.vertices = [anch 0 0 Cmd.move 7] from rfl] at ha
    simp only [List.mem_singleton] at ha
    subst ha
    show (anch 0 0 Cmd.move 7).id ∈ pathOld.anchorSubs
    rw [show pathOld.anchorSubs = [7] from rfl]
    simp [anch]
  have hmem : (anch 0 0 Cmd.move 7) ∈ pathOld.vertices := by
    rw [show pathOld.vertices = [anch 0 0 Cmd.move 7] from rfl]
    simp
  have hne : (5 : ℝ) ≠ pathOld.strokeWidth := by
    rw [show pathOld.strokeWidth = 1 from rfl]
    norm_num
  exact ⟨hsub, hmem, hne,
    (C9_flag_minimality pathOld 5 (anch 0 0 Cmd.move 7) ⟨1, 2⟩).2 hsub hmem,
    ((C9_flag_minimality pathOld 5 (anch 0 0 Cmd.move 7) ⟨1, 2⟩).1.2.2 hne).1⟩

/-- C10: getPointAt clamps its parameter before use — the arc-length target is
length · min(max(t, 0), 1), so every t below 0 behaves exactly like t = 0 and
every t above 1 exactly like t = 1 (including the state effect of the length
getter, which does not depend on t). -/
theorem C10_clamp (p : Path) (t : ℝ) (ank : Anchor) :
    (t < 0 → p.getPointAt t ank = p.getPointAt 0 ank) ∧
      (1 < t → p.getPointAt t ank = p.getPointAt 1 ank) := by
  constructor
  · intro ht
    have h1 : clamp01 t = clamp01 0 := by
      rw [clamp01, clamp01, max_eq_right (le_of_lt ht), max_self]
    simp only [Path.getPointAt, h1]
  · intro ht
    have h1 : clamp01 t = clamp01 1 := by
      rw [clamp01, clamp01, max_eq_left (by linarith : (0 : ℝ) ≤ t),
        min_eq_right (le_of_lt ht), max_eq_left (by norm_num : (0 : ℝ) ≤ 1), min_self]
    simp only [Path.getPointAt, h1]

/-- C10 (witness): on the zero-length path, t = −1 samples like t = 0 and
t = 2 samples like t = 1. -/
theorem C10_witness :
    (-1 : ℝ) < 0 ∧ (1 : ℝ) < 2 ∧
      pathZero.getPointAt (-1) (anch 0 0 Cmd.move 0) = pathZero.getPointAt 0 (anch 0 0 Cmd.move 0) ∧
      pathZero.getPointAt 2 (anch 0 0 Cmd.move 0) = pathZero.getPointAt 1 (anch 0 0 Cmd.move 0) :=
  ⟨by norm_num, by norm_num,
    (C10_clamp pathZero (-1) (anch 0 0 Cmd.move 0)).1 (by norm_num),
    (C10_clamp pathZero 2 (anch 0 0 Cmd.move 0)).2 (by norm_num)⟩

end TwoPath
